import Mathlib

/-!
Verification of the customer-revenue quantile pipeline (Go source `main.go`).

The embedding mirrors the COMPUTE and EXPORT phase functions of the source:
`buildPriceMap`, `buildEmailMap`, `computeCA`, `computeQuantiles`,
`exportTopCustomers`.  Go maps are embedded as association lists (for the
accumulation maps, where presence of a key must be distinguishable from a
zero value) or as functions to `Option` (for the resolved reference maps);
`time.Time` recency stamps are embedded as integers ordered the same way
(`After` is strict `<` on the stamp); Go `float64` money values are embedded
as exact rationals, except where a claim is specifically about binary
floating-point rounding, for which a separate IEEE-754 binary64
round-to-nearest-even model (`round64`, valid on the normal range) is
provided.
-/

/-- Source row `EventRow` (main.go): one purchase event. -/
structure EventRow where
  eventDataID : ℤ
  eventID : ℤ
  contentID : ℤ
  customerID : ℤ
  eventTypeID : ℤ
  eventDate : ℤ
  quantity : ℤ
  insertDate : ℤ
  deriving DecidableEq, Repr

/-- Source row `ContentPriceRow` (main.go): one historical price record. -/
structure ContentPriceRow where
  contentPriceID : ℤ
  contentID : ℤ
  price : ℚ
  currency : String
  insertDate : ℤ
  deriving DecidableEq, Repr

/-- Source row `CustomerDataRow` (main.go): one historical contact record. -/
structure CustomerDataRow where
  customerChannelID : ℤ
  customerID : ℤ
  channelTypeID : ℤ
  channelValue : String
  insertDate : ℤ
  deriving DecidableEq, Repr

/-- Source struct `CustomerCA` (main.go): a ranked customer. -/
structure CustomerCA where
  customerID : ℤ
  email : String
  ca : ℚ
  deriving DecidableEq, Repr

/-- Source struct `QuantileStats` (main.go): per-bucket summary. -/
structure QuantileStats where
  minCA : ℚ
  maxCA : ℚ
  nbClients : ℕ
  deriving DecidableEq, Repr

/-- Lookup in an association list embedding of a Go map: `m[k]` with its
`ok` flag becomes `Option`. -/
def alookup {α : Type} : List (ℤ × α) → ℤ → Option α
  | [], _ => none
  | (k', v) :: rest, k => if k = k' then some v else alookup rest k

/-- Embedding of the Go map update `m[k] += v` on a `float64`-valued map
(the absent key reads as zero, then the entry is created/updated). -/
def mapAdd : List (ℤ × ℚ) → ℤ → ℚ → List (ℤ × ℚ)
  | [], k, v => [(k, 0 + v)]
  | (k', v') :: rest, k, v =>
      if k = k' then (k', v' + v) :: rest else (k', v') :: mapAdd rest k v

/-- Embedding of the Go map update `m[k]++` on an `int`-valued map. -/
def mapInc : List (ℤ × ℕ) → ℤ → List (ℤ × ℕ)
  | [], k => [(k, 0 + 1)]
  | (k', c) :: rest, k =>
      if k = k' then (k', c + 1) :: rest else (k', c) :: mapInc rest k

/-- One iteration of the loop in `buildPriceMap` (main.go:210-215):
`ex, ok := priceMap[p.ContentID]; if !ok || p.InsertDate.After(ex.InsertDate)
{ priceMap[p.ContentID] = p }`.  `After` is strict order on stamps. -/
def priceStep (m : ℤ → Option ContentPriceRow) (p : ContentPriceRow) :
    ℤ → Option ContentPriceRow :=
  match m p.contentID with
  | none => fun k => if k = p.contentID then some p else m k
  | some ex =>
      if ex.insertDate < p.insertDate then
        fun k => if k = p.contentID then some p else m k
      else m

/-- The intermediate `priceMap` of `buildPriceMap` after the first loop. -/
def buildPriceMapFull (prices : List ContentPriceRow) : ℤ → Option ContentPriceRow :=
  prices.foldl priceStep (fun _ => none)

/-- Source `buildPriceMap` (main.go:208-221): latest `InsertDate` per
`ContentID`, projected to the price. -/
def buildPriceMap (prices : List ContentPriceRow) : ℤ → Option ℚ :=
  fun k => (buildPriceMapFull prices k).map (fun r => r.price)

/-- One iteration of the loop in `buildEmailMap` (main.go:226-231). -/
def emailStep (m : ℤ → Option CustomerDataRow) (r : CustomerDataRow) :
    ℤ → Option CustomerDataRow :=
  match m r.customerID with
  | none => fun k => if k = r.customerID then some r else m k
  | some ex =>
      if ex.insertDate < r.insertDate then
        fun k => if k = r.customerID then some r else m k
      else m

/-- The intermediate map of `buildEmailMap` after the first loop. -/
def buildEmailMapFull (cd : List CustomerDataRow) : ℤ → Option CustomerDataRow :=
  cd.foldl emailStep (fun _ => none)

/-- Source `buildEmailMap` (main.go:224-237): latest `InsertDate` per
`CustomerID`, projected to the channel value. -/
def buildEmailMap (cd : List CustomerDataRow) : ℤ → Option String :=
  fun k => (buildEmailMapFull cd k).map (fun r => r.channelValue)

/-- One iteration of the loop in `computeCA` (main.go:246-264): the price
map is consulted for the event's `ContentID`; a missing price increments
the per-content skip counter in `missingPrices` and contributes to no
customer; a present price adds `price * quantity` to the event's customer
entry (created at zero on first touch). -/
def caStep (priceMap : ℤ → Option ℚ) (acc : List (ℤ × ℚ) × List (ℤ × ℕ))
    (e : EventRow) : List (ℤ × ℚ) × List (ℤ × ℕ) :=
  match priceMap e.contentID with
  | none => (acc.1, mapInc acc.2 e.contentID)
  | some price => (mapAdd acc.1 e.customerID (price * (e.quantity : ℚ)), acc.2)

/-- Source `computeCA` (main.go:240-289), with the accumulation embedded in
exact rational arithmetic.  Returns the revenue map `ca` and the
`missingPrices` report map. -/
def computeCA (events : List EventRow) (priceMap : ℤ → Option ℚ) :
    List (ℤ × ℚ) × List (ℤ × ℕ) :=
  events.foldl (caStep priceMap) ([], [])

/-!  IEEE-754 binary64 model (normal range), used only where a claim is
about the floating-point representation the source actually computes in
(`float64` accumulation in `computeCA`, main.go:263). -/

/-- Scale a positive rational into the binade `[2^52, 2^53)`, tracking the
binary exponent.  Fuel bounds the loop; 1200 steps cover the full binary64
normal range. -/
def norm52 : ℕ → ℚ × ℤ → ℚ × ℤ
  | 0, p => p
  | fuel + 1, (x, e) =>
      if x < 2 ^ 52 then norm52 fuel (2 * x, e - 1)
      else if 2 ^ 53 ≤ x then norm52 fuel (x / 2, e + 1)
      else (x, e)

/-- `2^e` as a rational, for an integer exponent. -/
def pow2 (e : ℤ) : ℚ :=
  if 0 ≤ e then ((2 : ℚ) ^ e.toNat) else 1 / (2 : ℚ) ^ (-e).toNat

/-- Round a rational to the nearest integer, ties to even. -/
def rne (m : ℚ) : ℤ :=
  let fl := ⌊m⌋
  let fr := m - (fl : ℚ)
  if fr < 1 / 2 then fl
  else if 1 / 2 < fr then fl + 1
  else if fl % 2 = 0 then fl else fl + 1

/-- Round a rational to the nearest IEEE-754 binary64 value
(round-to-nearest, ties-to-even), on the normal range. -/
def round64 (x : ℚ) : ℚ :=
  if x = 0 then 0
  else if 0 < x then
    let p := norm52 1200 (x, 0)
    ((rne p.1 : ℚ)) * pow2 p.2
  else
    let p := norm52 1200 (-x, 0) ;
    -(((rne p.1 : ℚ)) * pow2 p.2)

/-- binary64 addition: exact sum, then one rounding. -/
def fadd (x y : ℚ) : ℚ := round64 (x + y)

/-- binary64 multiplication: exact product, then one rounding. -/
def fmul (x y : ℚ) : ℚ := round64 (x * y)

/-- The Go map update `ca[k] += v` under binary64 semantics. -/
def mapAdd64 : List (ℤ × ℚ) → ℤ → ℚ → List (ℤ × ℚ)
  | [], k, v => [(k, fadd 0 v)]
  | (k', v') :: rest, k, v =>
      if k = k' then (k', fadd v' v) :: rest else (k', v') :: mapAdd64 rest k v

/-- `computeCA` (main.go:240-289) with the accumulation embedded in IEEE-754
binary64 arithmetic, as the Go source computes it:
`ca[e.CustomerID] += price * float64(e.Quantity)`. -/
def computeCA64 (events : List EventRow) (priceMap : ℤ → Option ℚ) :
    List (ℤ × ℚ) × List (ℤ × ℕ) :=
  events.foldl
    (fun acc e =>
      match priceMap e.contentID with
      | none => (acc.1, mapInc acc.2 e.contentID)
      | some price => (mapAdd64 acc.1 e.customerID (fmul price (e.quantity : ℚ)), acc.2))
    ([], [])

/-- Embedding of Go `math.Round`: round half away from zero. -/
def goRound (x : ℚ) : ℤ :=
  if 0 ≤ x then ⌊x + 1 / 2⌋ else -⌊-x + 1 / 2⌋

/-- Source `computeQuantiles` (main.go:327-365).  `none` embeds the
`nil, nil` return on an empty ranking; otherwise the bucket summaries are
produced for indices `0 ≤ i < qCount` (the Go map keyed by `i` becomes a
list indexed by position) together with the top bucket
`sorted[0:min(size,n)]`.  A bucket slice `sorted[start:end]` is
`(sorted.drop start).take size`, since `take` truncates at the end of the
list exactly as the `end > n` clamp does. -/
def computeQuantiles (sorted : List CustomerCA) (quantile : ℚ) :
    Option (List QuantileStats × List CustomerCA) :=
  let n := sorted.length
  if n = 0 then none
  else
    let qCount0 : ℤ := goRound (1 / quantile)
    let qCount : ℕ := if qCount0 ≤ 0 then 1 else qCount0.toNat
    let size : ℕ := (n + qCount - 1) / qCount
    let qstats : List QuantileStats :=
      (List.range qCount).map (fun i =>
        let start := i * size
        if n ≤ start then ⟨0, 0, 0⟩
        else
          let bucket := (sorted.drop start).take size
          ⟨((bucket.getLast?).map (fun r => r.ca)).getD 0,
           ((bucket.head?).map (fun r => r.ca)).getD 0,
           bucket.length⟩)
    let topN := min size n
    some (qstats, sorted.take topN)

/-- The batch loop of `exportTopCustomers` (main.go:401-433): the sequence
of multi-row writes issued to the sink, each batch being
`rows[i : min(i+batchSize, len)]`.  The SQL serialization and the
transaction around each batch are external I/O; the fuel equals the row
count, which bounds the iteration count for any `batchSize ≥ 1`. -/
def exportChunks : ℕ → List CustomerCA → ℕ → List (List CustomerCA)
  | 0, _, _ => []
  | fuel + 1, rows, bs =>
      if rows.isEmpty then [] else rows.take bs :: exportChunks fuel (rows.drop bs) bs

/-- Source `exportTopCustomers` (main.go:381-435), modelled as the list of
batch writes it issues to the sink: empty membership returns success
immediately (main.go:382-385) before any sink interaction. -/
def exportTopCustomers (top : List CustomerCA) (batchSize : ℕ) :
    List (List CustomerCA) :=
  if top.isEmpty then [] else exportChunks top.length top batchSize

/-!  Proof layer.  The two resolver loops are reduced, key by key, to a
single-key latest-wins scan `resolveLatest`, about which the latest-wins
and tie-break facts are proved once. -/

/-- The effect of one resolver iteration on the entry of the incoming
record's own key. -/
def latestStep {α : Type} (t : α → ℤ) (c : Option α) (p : α) : Option α :=
  match c with
  | none => some p
  | some ex => if t ex < t p then some p else some ex

/-- Single-key latest-wins scan with seed `cur`. -/
def resolveLatest {α : Type} (t : α → ℤ) (cur : Option α) (l : List α) : Option α :=
  l.foldl (latestStep t) cur

/-- The list of revenue contributions that the events of customer `c` make
under `computeCA`: one entry `price * quantity` per event of `c` whose
content has a resolved price, in processing order. -/
def custWeights (pm : ℤ → Option ℚ) (c : ℤ) (events : List EventRow) : List ℚ :=
  (events.filter (fun e => e.customerID = c ∧ (pm e.contentID).isSome)).map
    (fun e => ((pm e.contentID).getD 0) * (e.quantity : ℚ))

/-- The number of events with content `k` that `computeCA` skips for lack
of a resolved price. -/
def missedCount (pm : ℤ → Option ℚ) (k : ℤ) (events : List EventRow) : ℕ :=
  (events.filter (fun e => e.contentID = k ∧ (pm e.contentID).isNone)).length

/-- The bucket count `qCount` of `computeQuantiles` (main.go:332-335). -/
def qK (q : ℚ) : ℕ :=
  if goRound (1 / q) ≤ 0 then 1 else (goRound (1 / q)).toNat

/-- The bucket size `size` of `computeQuantiles` (main.go:338). -/
def qS (n : ℕ) (q : ℚ) : ℕ := (n + qK q - 1) / qK q

/-- The summary that `computeQuantiles` records for bucket `i`
(main.go:341-356), with bucket size `S`. -/
def bucketFun (sorted : List CustomerCA) (S i : ℕ) : QuantileStats :=
  if sorted.length ≤ i * S then ⟨0, 0, 0⟩
  else
    ⟨((((sorted.drop (i * S)).take S).getLast?).map (fun r => r.ca)).getD 0,
     ((((sorted.drop (i * S)).take S).head?).map (fun r => r.ca)).getD 0,
     ((sorted.drop (i * S)).take S).length⟩

theorem priceStep_apply_ne (m : ℤ → Option ContentPriceRow) (p : ContentPriceRow)
    (k : ℤ) (hk : k ≠ p.contentID) : priceStep m p k = m k := by
  unfold priceStep
  cases h : m p.contentID with
  | none => simp [hk]
  | some ex =>
      by_cases hlt : ex.insertDate < p.insertDate <;> simp [hlt, hk]

theorem priceStep_apply_self (m : ℤ → Option ContentPriceRow) (p : ContentPriceRow) :
    priceStep m p p.contentID =
      latestStep (fun r => r.insertDate) (m p.contentID) p := by
  unfold priceStep latestStep
  cases h : m p.contentID with
  | none => simp
  | some ex =>
      by_cases hlt : ex.insertDate < p.insertDate <;> simp [hlt, h]

theorem emailStep_apply_ne (m : ℤ → Option CustomerDataRow) (p : CustomerDataRow)
    (k : ℤ) (hk : k ≠ p.customerID) : emailStep m p k = m k := by
  unfold emailStep
  cases h : m p.customerID with
  | none => simp [hk]
  | some ex =>
      by_cases hlt : ex.insertDate < p.insertDate <;> simp [hlt, hk]

theorem emailStep_apply_self (m : ℤ → Option CustomerDataRow) (p : CustomerDataRow) :
    emailStep m p p.customerID =
      latestStep (fun r => r.insertDate) (m p.customerID) p := by
  unfold emailStep latestStep
  cases h : m p.customerID with
  | none => simp
  | some ex =>
      by_cases hlt : ex.insertDate < p.insertDate <;> simp [hlt, h]

theorem foldl_priceStep_eq_resolve (l : List ContentPriceRow) (k : ℤ) :
    ∀ m : ℤ → Option ContentPriceRow,
      (l.foldl priceStep m) k =
        resolveLatest (fun r => r.insertDate) (m k)
          (l.filter (fun p => p.contentID = k)) := by
  induction l with
  | nil => intro m; rfl
  | cons p rest ih =>
      intro m
      by_cases hpk : p.contentID = k
      · have hstep : (priceStep m p) k = latestStep (fun r => r.insertDate) (m k) p := by
          rw [← hpk]; exact priceStep_apply_self m p
        have hfil : (p :: rest).filter (fun q => q.contentID = k) =
            p :: rest.filter (fun q => q.contentID = k) := by
          simp [List.filter_cons, hpk]
        rw [List.foldl_cons, ih (priceStep m p), hstep, hfil]
        rfl
      · have hfil : (p :: rest).filter (fun q => q.contentID = k) =
            rest.filter (fun q => q.contentID = k) := by
          simp [List.filter_cons, hpk]
        rw [List.foldl_cons, ih (priceStep m p),
          priceStep_apply_ne m p k (fun h => hpk h.symm), hfil]

theorem foldl_emailStep_eq_resolve (l : List CustomerDataRow) (k : ℤ) :
    ∀ m : ℤ → Option CustomerDataRow,
      (l.foldl emailStep m) k =
        resolveLatest (fun r => r.insertDate) (m k)
          (l.filter (fun p => p.customerID = k)) := by
  induction l with
  | nil => intro m; rfl
  | cons p rest ih =>
      intro m
      by_cases hpk : p.customerID = k
      · have hstep : (emailStep m p) k = latestStep (fun r => r.insertDate) (m k) p := by
          rw [← hpk]; exact emailStep_apply_self m p
        have hfil : (p :: rest).filter (fun q => q.customerID = k) =
            p :: rest.filter (fun q => q.customerID = k) := by
          simp [List.filter_cons, hpk]
        rw [List.foldl_cons, ih (emailStep m p), hstep, hfil]
        rfl
      · have hfil : (p :: rest).filter (fun q => q.customerID = k) =
            rest.filter (fun q => q.customerID = k) := by
          simp [List.filter_cons, hpk]
        rw [List.foldl_cons, ih (emailStep m p),
          emailStep_apply_ne m p k (fun h => hpk h.symm), hfil]

theorem buildPriceMapFull_eq_resolve (l : List ContentPriceRow) (k : ℤ) :
    buildPriceMapFull l k =
      resolveLatest (fun r => r.insertDate) none
        (l.filter (fun p => p.contentID = k)) :=
  foldl_priceStep_eq_resolve l k _

theorem buildEmailMapFull_eq_resolve (l : List CustomerDataRow) (k : ℤ) :
    buildEmailMapFull l k =
      resolveLatest (fun r => r.insertDate) none
        (l.filter (fun p => p.customerID = k)) :=
  foldl_emailStep_eq_resolve l k _

theorem resolveLatest_some_spec {α : Type} (t : α → ℤ) :
    ∀ (l : List α) (c r : α), resolveLatest t (some c) l = some r →
      (r = c ∧ ∀ x ∈ l, t x ≤ t c) ∨
      (∃ l₁ l₂, l = l₁ ++ r :: l₂ ∧ t c < t r ∧
        (∀ x ∈ l₁, t x < t r) ∧ (∀ x ∈ l₂, t x ≤ t r)) := by
  intro l
  induction l with
  | nil =>
      intro c r h
      left
      simp only [resolveLatest, List.foldl_nil, Option.some.injEq] at h
      exact ⟨h.symm, by simp⟩
  | cons p rest ih =>
      intro c r h
      simp only [resolveLatest, List.foldl_cons, latestStep] at h
      by_cases hlt : t c < t p
      · rw [if_pos hlt] at h
        rcases ih p r h with ⟨hrc, hall⟩ | ⟨l₁, l₂, hdec, hcr, h₁, h₂⟩
        · right
          refine ⟨[], rest, by simp [hrc], by rw [hrc]; exact hlt, by simp, ?_⟩
          intro x hx; rw [hrc]; exact hall x hx
        · right
          refine ⟨p :: l₁, l₂, by simp [hdec], lt_trans hlt hcr, ?_, h₂⟩
          intro x hx
          rcases List.mem_cons.mp hx with hx | hx
          · rw [hx]; exact hcr
          · exact h₁ x hx
      · rw [if_neg hlt] at h
        rcases ih c r h with ⟨hrc, hall⟩ | ⟨l₁, l₂, hdec, hcr, h₁, h₂⟩
        · left
          refine ⟨hrc, ?_⟩
          intro x hx
          rcases List.mem_cons.mp hx with hx | hx
          · rw [hx]; exact le_of_not_lt hlt
          · exact hall x hx
        · right
          refine ⟨p :: l₁, l₂, by simp [hdec], hcr, ?_, h₂⟩
          intro x hx
          rcases List.mem_cons.mp hx with hx | hx
          · rw [hx]; exact lt_of_le_of_lt (le_of_not_lt hlt) hcr
          · exact h₁ x hx

theorem resolveLatest_firstMax {α : Type} (t : α → ℤ) (l : List α) (r : α)
    (h : resolveLatest t none l = some r) :
    ∃ l₁ l₂, l = l₁ ++ r :: l₂ ∧
      (∀ x ∈ l₁, t x < t r) ∧ (∀ x ∈ l₂, t x ≤ t r) := by
  cases l with
  | nil => simp [resolveLatest] at h
  | cons p rest =>
      have h' : resolveLatest t (some p) rest = some r := h
      rcases resolveLatest_some_spec t rest p r h' with ⟨hrc, hall⟩ | ⟨l₁, l₂, hdec, hcr, h₁, h₂⟩
      · exact ⟨[], rest, by simp [hrc], by simp, by rw [hrc]; exact hall⟩
      · refine ⟨p :: l₁, l₂, by simp [hdec], ?_, h₂⟩
        intro x hx
        rcases List.mem_cons.mp hx with hx | hx
        · rw [hx]; exact hcr
        · exact h₁ x hx

theorem resolveLatest_mem_max {α : Type} (t : α → ℤ) (l : List α) (r : α)
    (h : resolveLatest t none l = some r) :
    r ∈ l ∧ ∀ x ∈ l, t x ≤ t r := by
  rcases resolveLatest_firstMax t l r h with ⟨l₁, l₂, hdec, h₁, h₂⟩
  subst hdec
  constructor
  · exact List.mem_append_right _ (List.mem_cons_self r l₂)
  · intro x hx
    rcases List.mem_append.mp hx with hx | hx
    · exact le_of_lt (h₁ x hx)
    · rcases List.mem_cons.mp hx with hx | hx
      · rw [hx]
      · exact h₂ x hx

theorem alookup_mapAdd_self (l : List (ℤ × ℚ)) (k : ℤ) (v : ℚ) :
    alookup (mapAdd l k v) k = some ((alookup l k).getD 0 + v) := by
  induction l with
  | nil => simp [mapAdd, alookup]
  | cons kv rest ih =>
      obtain ⟨k', v'⟩ := kv
      by_cases hk : k = k'
      · simp [mapAdd, alookup, hk]
      · simp [mapAdd, alookup, hk, ih]

theorem alookup_mapAdd_ne (l : List (ℤ × ℚ)) (k k' : ℤ) (v : ℚ) (h : k' ≠ k) :
    alookup (mapAdd l k v) k' = alookup l k' := by
  induction l with
  | nil => simp [mapAdd, alookup, h]
  | cons kv rest ih =>
      obtain ⟨k₀, v₀⟩ := kv
      by_cases hk : k = k₀
      · subst hk
        simp [mapAdd, alookup, h]
      · by_cases hk' : k' = k₀ <;> simp [mapAdd, alookup, hk, hk', ih]

theorem alookup_mapInc_self (l : List (ℤ × ℕ)) (k : ℤ) :
    alookup (mapInc l k) k = some ((alookup l k).getD 0 + 1) := by
  induction l with
  | nil => simp [mapInc, alookup]
  | cons kv rest ih =>
      obtain ⟨k', v'⟩ := kv
      by_cases hk : k = k'
      · simp [mapInc, alookup, hk]
      · simp [mapInc, alookup, hk, ih]

theorem alookup_mapInc_ne (l : List (ℤ × ℕ)) (k k' : ℤ) (h : k' ≠ k) :
    alookup (mapInc l k) k' = alookup l k' := by
  induction l with
  | nil => simp [mapInc, alookup, h]
  | cons kv rest ih =>
      obtain ⟨k₀, v₀⟩ := kv
      by_cases hk : k = k₀
      · subst hk
        simp [mapInc, alookup, h]
      · by_cases hk' : k' = k₀ <;> simp [mapInc, alookup, hk, hk', ih]

theorem ca_fold_lookup (pm : ℤ → Option ℚ) (c : ℤ) :
    ∀ (events : List EventRow) (acc : List (ℤ × ℚ) × List (ℤ × ℕ)),
      alookup (events.foldl (caStep pm) acc).1 c =
        match alookup acc.1 c with
        | some v => some (v + (custWeights pm c events).sum)
        | none =>
            if custWeights pm c events = [] then none
            else some ((custWeights pm c events).sum) := by
  intro events
  induction events with
  | nil =>
      intro acc
      cases h : alookup acc.1 c <;> simp [custWeights, h]
  | cons e rest ih =>
      intro acc
      rw [List.foldl_cons]
      cases hp : pm e.contentID with
      | none =>
          have hstep : caStep pm acc e = (acc.1, mapInc acc.2 e.contentID) := by
            simp [caStep, hp]
          have hw : custWeights pm c (e :: rest) = custWeights pm c rest := by
            simp [custWeights, List.filter_cons, hp]
          rw [hstep, hw, ih (acc.1, mapInc acc.2 e.contentID)]
      | some price =>
          have hstep : caStep pm acc e =
              (mapAdd acc.1 e.customerID (price * (e.quantity : ℚ)), acc.2) := by
            simp [caStep, hp]
          by_cases hc : e.customerID = c
          · have hw : custWeights pm c (e :: rest) =
                (price * (e.quantity : ℚ)) :: custWeights pm c rest := by
              simp [custWeights, List.filter_cons, hp, hc]
            rw [hstep, hw, hc, ih (mapAdd acc.1 c (price * (e.quantity : ℚ)), acc.2)]
            have hself := alookup_mapAdd_self acc.1 c (price * (e.quantity : ℚ))
            rw [hself]
            cases h : alookup acc.1 c with
            | none =>
                simp [h, List.sum_cons, add_assoc]
            | some v =>
                simp [h, List.sum_cons, add_assoc]
          · have hw : custWeights pm c (e :: rest) = custWeights pm c rest := by
              simp [custWeights, List.filter_cons, hp, hc]
            rw [hstep, hw, ih (mapAdd acc.1 e.customerID (price * (e.quantity : ℚ)), acc.2)]
            rw [alookup_mapAdd_ne acc.1 e.customerID c _ (fun h => hc h.symm)]

theorem missing_fold_lookup (pm : ℤ → Option ℚ) (k : ℤ) :
    ∀ (events : List EventRow) (acc : List (ℤ × ℚ) × List (ℤ × ℕ)),
      alookup (events.foldl (caStep pm) acc).2 k =
        match alookup acc.2 k with
        | some n => some (n + missedCount pm k events)
        | none =>
            if missedCount pm k events = 0 then none
            else some (missedCount pm k events) := by
  intro events
  induction events with
  | nil =>
      intro acc
      cases h : alookup acc.2 k <;> simp [missedCount, h]
  | cons e rest ih =>
      intro acc
      rw [List.foldl_cons]
      cases hp : pm e.contentID with
      | some price =>
          have hstep : caStep pm acc e =
              (mapAdd acc.1 e.customerID (price * (e.quantity : ℚ)), acc.2) := by
            simp [caStep, hp]
          have hw : missedCount pm k (e :: rest) = missedCount pm k rest := by
            simp [missedCount, List.filter_cons, hp]
          rw [hstep, hw, ih (mapAdd acc.1 e.customerID (price * (e.quantity : ℚ)), acc.2)]
      | none =>
          have hstep : caStep pm acc e = (acc.1, mapInc acc.2 e.contentID) := by
            simp [caStep, hp]
          by_cases hk : e.contentID = k
          · have hpk : pm k = none := by rw [← hk]; exact hp
            have hw : missedCount pm k (e :: rest) = missedCount pm k rest + 1 := by
              simp [missedCount, List.filter_cons, hp, hk, hpk]
            rw [hstep, hw, hk, ih (acc.1, mapInc acc.2 k)]
            have hself := alookup_mapInc_self acc.2 k
            rw [hself]
            cases h : alookup acc.2 k with
            | none => simp [h]; omega
            | some n => simp [h]; omega
          · have hw : missedCount pm k (e :: rest) = missedCount pm k rest := by
              simp [missedCount, List.filter_cons, hp, hk]
            rw [hstep, hw, ih (acc.1, mapInc acc.2 e.contentID)]
            rw [alookup_mapInc_ne acc.2 e.contentID k (fun h => hk h.symm)]

theorem ca_fold_filter_priced (pm : ℤ → Option ℚ) :
    ∀ (events : List EventRow) (acc₁ acc₂ : List (ℤ × ℚ) × List (ℤ × ℕ)),
      acc₁.1 = acc₂.1 →
      (events.foldl (caStep pm) acc₁).1 =
        ((events.filter (fun e => (pm e.contentID).isSome)).foldl (caStep pm) acc₂).1 := by
  intro events
  induction events with
  | nil => intro acc₁ acc₂ h; simpa using h
  | cons e rest ih =>
      intro acc₁ acc₂ h
      rw [List.foldl_cons]
      cases hp : pm e.contentID with
      | none =>
          have hfil : (e :: rest).filter (fun e => (pm e.contentID).isSome) =
              rest.filter (fun e => (pm e.contentID).isSome) := by
            simp [List.filter_cons, hp]
          rw [hfil]
          exact ih (caStep pm acc₁ e) acc₂ (by simp [caStep, hp, h])
      | some price =>
          have hfil : (e :: rest).filter (fun e => (pm e.contentID).isSome) =
              e :: rest.filter (fun e => (pm e.contentID).isSome) := by
            simp [List.filter_cons, hp]
          rw [hfil, List.foldl_cons]
          exact ih (caStep pm acc₁ e) (caStep pm acc₂ e) (by simp [caStep, hp, h])

theorem goRound_ge_one (x : ℚ) (hx : 1 ≤ x) : 1 ≤ goRound x := by
  unfold goRound
  rw [if_pos (le_trans zero_le_one hx)]
  rw [Int.le_floor]
  push_cast
  linarith

theorem one_le_inv_quantile (q : ℚ) (hq1 : 0 < q) (hq2 : q ≤ 1) : 1 ≤ 1 / q := by
  rw [le_div_iff hq1]
  linarith

theorem computeQuantiles_eq (sorted : List CustomerCA) (q : ℚ) (h0 : sorted ≠ []) :
    computeQuantiles sorted q =
      some ((List.range (qK q)).map (bucketFun sorted (qS sorted.length q)),
        sorted.take (min (qS sorted.length q) sorted.length)) := by
  have hn : sorted.length ≠ 0 := fun h => h0 (List.length_eq_zero.mp h)
  simp only [computeQuantiles, hn, if_false, qK, qS, bucketFun]
  rfl

theorem qK_pos (q : ℚ) : 1 ≤ qK q := by
  unfold qK
  by_cases h : goRound (1 / q) ≤ 0
  · rw [if_pos h]
  · rw [if_neg h]
    omega

theorem qK_eq_claim (q : ℚ) (hq1 : 0 < q) (hq2 : q ≤ 1) :
    qK q = max 1 (goRound (1 / q)).toNat := by
  have h1 : 1 ≤ goRound (1 / q) := goRound_ge_one _ (one_le_inv_quantile q hq1 hq2)
  unfold qK
  rw [if_neg (by omega)]
  omega

theorem qS_pos (n : ℕ) (q : ℚ) (hn : 1 ≤ n) : 1 ≤ qS n q := by
  unfold qS
  have hK := qK_pos q
  rw [Nat.le_div_iff_mul_le (by omega)]
  omega

theorem qS_mul_ge (n : ℕ) (q : ℚ) : n ≤ qK q * qS n q := by
  unfold qS
  have hK := qK_pos q
  have hdm := Nat.div_add_mod (n + qK q - 1) (qK q)
  have hml : (n + qK q - 1) % qK q < qK q := Nat.mod_lt _ (by omega)
  omega

theorem head?_take_pos {α : Type} (l : List α) (s : ℕ) (hs : 1 ≤ s) :
    (l.take s).head? = l.head? := by
  cases l with
  | nil => simp
  | cons a rest =>
      cases s with
      | zero => omega
      | succ s' => simp [List.take_succ_cons]

theorem bucket_shape (sorted : List CustomerCA) (S i : ℕ) (hS : 1 ≤ S)
    (hi : i * S < sorted.length) :
    ∃ x y, sorted[i * S]? = some x ∧
      sorted[min ((i + 1) * S) sorted.length - 1]? = some y ∧
      bucketFun sorted S i =
        ⟨y.ca, x.ca, min ((i + 1) * S) sorted.length - i * S⟩ := by
  have hms : (i + 1) * S = i * S + S := by ring
  have hblen : ((sorted.drop (i * S)).take S).length =
      min (i * S + S) sorted.length - i * S := by
    rw [List.length_take, List.length_drop]
    omega
  have hbpos : 1 ≤ ((sorted.drop (i * S)).take S).length := by rw [hblen]; omega
  have hble : ((sorted.drop (i * S)).take S).length ≤ S := by
    rw [List.length_take]
    omega
  have hhead : ((sorted.drop (i * S)).take S).head? = sorted[i * S]? := by
    rw [head?_take_pos _ _ hS, List.head?_drop]
  have hlast : ((sorted.drop (i * S)).take S).getLast? =
      sorted[i * S + (((sorted.drop (i * S)).take S).length - 1)]? := by
    rw [List.getLast?_eq_getElem?]
    rw [List.getElem?_take_of_lt (by omega), List.getElem?_drop]
  obtain ⟨x, hx⟩ : ∃ x, sorted[i * S]? = some x :=
    ⟨_, List.getElem?_eq_some.mpr ⟨hi, rfl⟩⟩
  obtain ⟨y, hy⟩ :
      ∃ y, sorted[i * S + (((sorted.drop (i * S)).take S).length - 1)]? = some y := by
    refine ⟨_, List.getElem?_eq_some.mpr ⟨?_, rfl⟩⟩
    omega
  refine ⟨x, y, hx, ?_, ?_⟩
  · rw [show min ((i + 1) * S) sorted.length - 1 =
        i * S + (((sorted.drop (i * S)).take S).length - 1) from by
      rw [hblen, hms]; omega]
    exact hy
  · unfold bucketFun
    rw [if_neg (by omega)]
    rw [hhead.trans hx, hlast.trans hy, hblen, hms]
    rfl

theorem bucketFun_count (sorted : List CustomerCA) (S i : ℕ) :
    (bucketFun sorted S i).nbClients =
      min ((i + 1) * S) sorted.length - min (i * S) sorted.length := by
  have hms : (i + 1) * S = i * S + S := by ring
  by_cases hi : sorted.length ≤ i * S
  · unfold bucketFun
    rw [if_pos hi]
    simp only
    omega
  · unfold bucketFun
    rw [if_neg hi]
    simp only [List.length_take, List.length_drop]
    omega

theorem sum_range_map_tsub (g : ℕ → ℕ) (hg : ∀ i, g i ≤ g (i + 1)) :
    ∀ k, ((List.range k).map (fun i => g (i + 1) - g i)).sum = g k - g 0 := by
  have hmono : Monotone g := monotone_nat_of_le_succ hg
  intro k
  induction k with
  | zero => simp
  | succ k ih =>
      rw [List.range_succ, List.map_append, List.sum_append, ih]
      have h1 := hg k
      have h2 := hmono (Nat.zero_le k)
      simp only [List.map_cons, List.map_nil, List.sum_cons, List.sum_nil]
      omega

theorem qstats_getElem (K : ℕ) (f : ℕ → QuantileStats) (i : ℕ) (hi : i < K) :
    ((List.range K).map f)[i]? = some (f i) := by
  rw [List.getElem?_map, List.getElem?_range hi]
  rfl

/-- C3: for every non-empty ranked input and quantile fraction `q ∈ (0,1]`,
`computeQuantiles` produces `K = round(1/q)` buckets (clamped to a minimum
of 1), of size `S = ceil(N/K)`; bucket `i` covers ranked positions
`[i*S, min((i+1)*S, N))`, so its member count is `min((i+1)*S, N) - i*S`,
its `MaxCA` is the revenue at position `i*S` and its `MinCA` the revenue at
position `min((i+1)*S, N) - 1`; a bucket with `i*S ≥ N` is reported as
`NbClients = 0` with `MinCA = MaxCA = 0` rather than being an error. -/
theorem C3_bucketer_shape (sorted : List CustomerCA) (q : ℚ)
    (h0 : sorted ≠ []) (hq1 : 0 < q) (hq2 : q ≤ 1) :
    qK q = max 1 (goRound (1 / q)).toNat ∧
    qS sorted.length q = (sorted.length + qK q - 1) / qK q ∧
    ∃ qstats top, computeQuantiles sorted q = some (qstats, top) ∧
      qstats.length = qK q ∧
      ∀ i, i < qK q →
        (sorted.length ≤ i * qS sorted.length q →
          qstats[i]? = some ⟨0, 0, 0⟩) ∧
        (i * qS sorted.length q < sorted.length →
          ∃ s, qstats[i]? = some s ∧
            s.nbClients =
              min ((i + 1) * qS sorted.length q) sorted.length -
                i * qS sorted.length q ∧
            (sorted[i * qS sorted.length q]?).map (fun r => r.ca) = some s.maxCA ∧
            (sorted[min ((i + 1) * qS sorted.length q) sorted.length - 1]?).map
              (fun r => r.ca) = some s.minCA) := by
  have hS : 1 ≤ qS sorted.length q :=
    qS_pos _ _ (by
      have := List.length_pos.mpr h0
      omega)
  refine ⟨qK_eq_claim q hq1 hq2, rfl, _, _, computeQuantiles_eq sorted q h0, by simp, ?_⟩
  intro i hi
  constructor
  · intro hemp
    rw [qstats_getElem _ _ _ hi]
    unfold bucketFun
    rw [if_pos hemp]
  · intro hlt
    obtain ⟨x, y, hx, hy, hbf⟩ := bucket_shape sorted (qS sorted.length q) i hS hlt
    refine ⟨_, qstats_getElem _ _ _ hi, ?_, ?_, ?_⟩
    · rw [hbf]
    · rw [hbf, hx]
      rfl
    · rw [hbf, hy]
      rfl

/-- C4: for every non-empty ranking sorted descending by revenue and valid
quantile fraction, the member counts of the buckets of `computeQuantiles`
sum to the population size, and for adjacent non-empty buckets the lower
bucket's `MaxCA` never exceeds the upper bucket's `MinCA`. -/
theorem C4_bucketer_coverage (sorted : List CustomerCA) (q : ℚ)
    (hsorted : List.Pairwise (fun a b => b.ca ≤ a.ca) sorted)
    (h0 : sorted ≠ []) (hq1 : 0 < q) (hq2 : q ≤ 1) :
    ∃ qstats top, computeQuantiles sorted q = some (qstats, top) ∧
      (qstats.map (fun s => s.nbClients)).sum = sorted.length ∧
      ∀ i a b, qstats[i]? = some a → qstats[i + 1]? = some b →
        a.nbClients ≠ 0 → b.nbClients ≠ 0 → b.maxCA ≤ a.minCA := by
  have hlen : 1 ≤ sorted.length := by
    have := List.length_pos.mpr h0
    omega
  have hS : 1 ≤ qS sorted.length q := qS_pos _ _ hlen
  refine ⟨_, _, computeQuantiles_eq sorted q h0, ?_, ?_⟩
  · rw [List.map_map]
    have hfun : ((fun s => s.nbClients) ∘ bucketFun sorted (qS sorted.length q)) =
        fun i => min ((i + 1) * qS sorted.length q) sorted.length -
          min (i * qS sorted.length q) sorted.length :=
      funext (fun i => bucketFun_count sorted (qS sorted.length q) i)
    rw [hfun]
    rw [sum_range_map_tsub (fun j => min (j * qS sorted.length q) sorted.length)
      (fun i => by
        dsimp only
        have h1 : i * qS sorted.length q ≤ (i + 1) * qS sorted.length q :=
          Nat.mul_le_mul_right _ (Nat.le_succ i)
        omega)]
    have := qS_mul_ge sorted.length q
    omega
  · intro i a b ha hb hna hnb
    obtain ⟨hia, haeq⟩ := List.getElem?_eq_some.mp ha
    obtain ⟨hib, hbeq⟩ := List.getElem?_eq_some.mp hb
    rw [List.length_map, List.length_range] at hia hib
    rw [List.getElem_map, List.getElem_range] at haeq hbeq
    have hms : (i + 1) * qS sorted.length q = i * qS sorted.length q + qS sorted.length q := by
      ring
    have hina : i * qS sorted.length q < sorted.length := by
      by_contra hcon
      push_neg at hcon
      rw [← haeq] at hna
      unfold bucketFun at hna
      rw [if_pos hcon] at hna
      exact hna rfl
    have hinb : (i + 1) * qS sorted.length q < sorted.length := by
      by_contra hcon
      push_neg at hcon
      rw [← hbeq] at hnb
      unfold bucketFun at hnb
      rw [if_pos hcon] at hnb
      exact hnb rfl
    obtain ⟨x, y, hx, hy, hbf⟩ := bucket_shape sorted (qS sorted.length q) i hS hina
    obtain ⟨x', y', hx', hy', hbf'⟩ := bucket_shape sorted (qS sorted.length q) (i + 1) hS hinb
    have hamin : a.minCA = y.ca := by rw [← haeq, hbf]
    have hbmax : b.maxCA = x'.ca := by rw [← hbeq, hbf']
    have hidx : min ((i + 1) * qS sorted.length q) sorted.length - 1 =
        (i + 1) * qS sorted.length q - 1 := by omega
    rw [hidx] at hy
    obtain ⟨hylt, hyeq⟩ := List.getElem?_eq_some.mp hy
    obtain ⟨hxlt, hxeq⟩ := List.getElem?_eq_some.mp hx'
    have hord := (List.pairwise_iff_getElem.mp hsorted)
      ((i + 1) * qS sorted.length q - 1) ((i + 1) * qS sorted.length q)
      hylt hxlt (by omega)
    rw [hyeq, hxeq] at hord
    rw [hamin, hbmax]
    exact hord

/-- C5: the top bucket returned by `computeQuantiles` is exactly the first
`S` elements of the ranking (all of it when `N < S`), and an empty ranking
yields `none` (no buckets, absent top bucket) rather than a crash or a
single empty bucket. -/
theorem C5_top_bucket (sorted : List CustomerCA) (q : ℚ)
    (hq1 : 0 < q) (hq2 : q ≤ 1) :
    computeQuantiles ([] : List CustomerCA) q = none ∧
    (sorted ≠ [] →
      ∃ qstats, computeQuantiles sorted q =
        some (qstats, sorted.take
          ((sorted.length + max 1 (goRound (1 / q)).toNat - 1) /
            max 1 (goRound (1 / q)).toNat))) := by
  constructor
  · rfl
  · intro h0
    have htake : sorted.take (min (qS sorted.length q) sorted.length) =
        sorted.take (qS sorted.length q) := by
      have h := List.take_take (qS sorted.length q) sorted.length sorted
      rw [List.take_length] at h
      exact h.symm
    have heq := computeQuantiles_eq sorted q h0
    rw [htake] at heq
    refine ⟨(List.range (qK q)).map (bucketFun sorted (qS sorted.length q)), ?_⟩
    rw [heq]
    have hk : qS sorted.length q =
        (sorted.length + max 1 (goRound (1 / q)).toNat - 1) /
          max 1 (goRound (1 / q)).toNat := by
      rw [qS, qK_eq_claim q hq1 hq2]
    rw [hk]

theorem computeCA_lookup (events : List EventRow) (pm : ℤ → Option ℚ) (c : ℤ) :
    alookup (computeCA events pm).1 c =
      if custWeights pm c events = [] then none
      else some ((custWeights pm c events).sum) := by
  have h := ca_fold_lookup pm c events ([], [])
  simpa [computeCA, alookup] using h

theorem computeCA_missing_lookup (events : List EventRow) (pm : ℤ → Option ℚ) (k : ℤ) :
    alookup (computeCA events pm).2 k =
      if missedCount pm k events = 0 then none
      else some (missedCount pm k events) := by
  have h := missing_fold_lookup pm k events ([], [])
  simpa [computeCA, alookup] using h

theorem custWeights_ne_nil (events : List EventRow) (pm : ℤ → Option ℚ) (c : ℤ)
    (h1 : ∃ e ∈ events, e.customerID = c ∧ (pm e.contentID).isSome) :
    custWeights pm c events ≠ [] := by
  obtain ⟨e₀, he₀, hc₀, hs₀⟩ := h1
  unfold custWeights
  have hmem : e₀ ∈ events.filter (fun e => e.customerID = c ∧ (pm e.contentID).isSome) :=
    List.mem_filter.mpr ⟨he₀, by simp [hc₀, hs₀]⟩
  exact List.ne_nil_of_mem (List.mem_map_of_mem _ hmem)

/-- C8: for every key, the record kept by each resolver is one of that
key's input records and carries the maximum recency stamp among them, and
the resolution of a key depends only on the records carrying that key. -/
theorem C8_resolver_latest_wins (prices : List ContentPriceRow)
    (cd : List CustomerDataRow) (k : ℤ) :
    (∀ r, buildPriceMapFull prices k = some r →
      r ∈ prices ∧ r.contentID = k ∧
        ∀ x ∈ prices, x.contentID = k → x.insertDate ≤ r.insertDate) ∧
    (∀ s, buildEmailMapFull cd k = some s →
      s ∈ cd ∧ s.customerID = k ∧
        ∀ x ∈ cd, x.customerID = k → x.insertDate ≤ s.insertDate) ∧
    (∀ prices₂ : List ContentPriceRow,
      prices₂.filter (fun p => p.contentID = k) =
          prices.filter (fun p => p.contentID = k) →
        buildPriceMap prices₂ k = buildPriceMap prices k) ∧
    (∀ cd₂ : List CustomerDataRow,
      cd₂.filter (fun x => x.customerID = k) =
          cd.filter (fun x => x.customerID = k) →
        buildEmailMap cd₂ k = buildEmailMap cd k) := by
  refine ⟨?_, ?_, ?_, ?_⟩
  · intro r h
    rw [buildPriceMapFull_eq_resolve] at h
    obtain ⟨hmem, hmax⟩ := resolveLatest_mem_max _ _ r h
    obtain ⟨hr, hrk⟩ := List.mem_filter.mp hmem
    refine ⟨hr, by simpa using hrk, ?_⟩
    intro x hx hxk
    exact hmax x (List.mem_filter.mpr ⟨hx, by simp [hxk]⟩)
  · intro s h
    rw [buildEmailMapFull_eq_resolve] at h
    obtain ⟨hmem, hmax⟩ := resolveLatest_mem_max _ _ s h
    obtain ⟨hr, hrk⟩ := List.mem_filter.mp hmem
    refine ⟨hr, by simpa using hrk, ?_⟩
    intro x hx hxk
    exact hmax x (List.mem_filter.mpr ⟨hx, by simp [hxk]⟩)
  · intro prices₂ hf
    unfold buildPriceMap
    rw [buildPriceMapFull_eq_resolve, buildPriceMapFull_eq_resolve, hf]
  · intro cd₂ hf
    unfold buildEmailMap
    rw [buildEmailMapFull_eq_resolve, buildEmailMapFull_eq_resolve, hf]

/-- C1 (amended): on equal recency timestamps the record processed EARLIER
in the pass is kept, for both resolutions: the kept record strictly exceeds
every same-key record before it and is at least every same-key record after
it, so a later record with an equal stamp never replaces it. -/
theorem C1_amended_tie_earlier_wins (prices : List ContentPriceRow)
    (cd : List CustomerDataRow) (k : ℤ) :
    (∀ r, buildPriceMapFull prices k = some r →
      ∃ l₁ l₂, prices.filter (fun p => p.contentID = k) = l₁ ++ r :: l₂ ∧
        (∀ x ∈ l₁, x.insertDate < r.insertDate) ∧
        (∀ x ∈ l₂, x.insertDate ≤ r.insertDate)) ∧
    (∀ s, buildEmailMapFull cd k = some s →
      ∃ l₁ l₂, cd.filter (fun x => x.customerID = k) = l₁ ++ s :: l₂ ∧
        (∀ x ∈ l₁, x.insertDate < s.insertDate) ∧
        (∀ x ∈ l₂, x.insertDate ≤ s.insertDate)) := by
  constructor
  · intro r h
    rw [buildPriceMapFull_eq_resolve] at h
    exact resolveLatest_firstMax _ _ r h
  · intro s h
    rw [buildEmailMapFull_eq_resolve] at h
    exact resolveLatest_firstMax _ _ s h

/-- C6 (amended): in exact arithmetic, for a customer all of whose events
are priced, the aggregated revenue of `computeCA` equals the sum of
`quantity * unitPrice` over that customer's events, and is unchanged by a
permutation of the event sequence.  (Bit-exact order independence fails for
the float64 accumulation of the source; see the counterexample.) -/
theorem C6_amended_exact_additivity (events : List EventRow)
    (pm : ℤ → Option ℚ) (c : ℤ)
    (h1 : ∃ e ∈ events, e.customerID = c)
    (h2 : ∀ e ∈ events, e.customerID = c → (pm e.contentID).isSome) :
    alookup (computeCA events pm).1 c =
      some (((events.filter (fun e => e.customerID = c)).map
        (fun e => ((pm e.contentID).getD 0) * (e.quantity : ℚ))).sum) ∧
    ∀ events₂, events.Perm events₂ →
      alookup (computeCA events₂ pm).1 c = alookup (computeCA events pm).1 c := by
  have hw : custWeights pm c events =
      (events.filter (fun e => e.customerID = c)).map
        (fun e => ((pm e.contentID).getD 0) * (e.quantity : ℚ)) := by
    unfold custWeights
    congr 1
    apply List.filter_congr
    intro e he
    by_cases hc : e.customerID = c
    · simp [hc, h2 e he hc]
    · simp [hc]
  have hne : custWeights pm c events ≠ [] := by
    obtain ⟨e₀, he₀, hc₀⟩ := h1
    exact custWeights_ne_nil events pm c ⟨e₀, he₀, hc₀, h2 e₀ he₀ hc₀⟩
  constructor
  · rw [computeCA_lookup, if_neg hne, hw]
  · intro events₂ hperm
    have hpw : (custWeights pm c events).Perm (custWeights pm c events₂) :=
      (hperm.filter _).map _
    rw [computeCA_lookup, computeCA_lookup]
    by_cases hce : custWeights pm c events = []
    · have hce₂ : custWeights pm c events₂ = [] := by
        have := hce ▸ hpw
        exact this.symm.eq_nil
      rw [if_pos hce, if_pos hce₂]
    · have hce₂ : custWeights pm c events₂ ≠ [] := by
        intro hnil
        rw [hnil] at hpw
        exact hce hpw.eq_nil
      rw [if_neg hce, if_neg hce₂, hpw.sum_eq]

/-- C7: an event with no resolved price contributes to no customer's total
(the revenue map over all events equals the one over the priced events
only), a customer all of whose events are unpriced is absent from the
revenue map, and skipped events are counted per content identifier in the
`missingPrices` report, it being returned rather than raised. -/
theorem C7_unpriced_excluded (events : List EventRow) (pm : ℤ → Option ℚ)
    (c k : ℤ)
    (hc : ∀ e ∈ events, e.customerID = c → pm e.contentID = none) :
    (computeCA events pm).1 =
      (computeCA (events.filter (fun e => (pm e.contentID).isSome)) pm).1 ∧
    alookup (computeCA events pm).1 c = none ∧
    alookup (computeCA events pm).2 k =
      (if missedCount pm k events = 0 then none
       else some (missedCount pm k events)) := by
  refine ⟨?_, ?_, computeCA_missing_lookup events pm k⟩
  · exact ca_fold_filter_priced pm events ([], []) ([], []) rfl
  · rw [computeCA_lookup]
    rw [if_pos ?_]
    unfold custWeights
    rw [List.filter_eq_nil_iff.mpr ?_]
    · rfl
    · intro e he
      by_cases hcc : e.customerID = c
      · simp [hcc, hc e he hcc]
      · simp [hcc]

/-- C10: a priced event with zero quantity still creates (or keeps) its
customer's entry in the revenue map: a customer whose events are all
zero-quantity priced events appears in the output with total exactly 0. -/
theorem C10_zero_quantity_entry (events : List EventRow) (pm : ℤ → Option ℚ)
    (c : ℤ)
    (h1 : ∃ e ∈ events, e.customerID = c ∧ (pm e.contentID).isSome)
    (h2 : ∀ e ∈ events, e.customerID = c → e.quantity = 0) :
    alookup (computeCA events pm).1 c = some 0 := by
  rw [computeCA_lookup, if_neg (custWeights_ne_nil events pm c h1)]
  congr 1
  apply List.sum_eq_zero
  intro w hw
  unfold custWeights at hw
  obtain ⟨e, he, hwe⟩ := List.mem_map.mp hw
  obtain ⟨hee, hcond⟩ := List.mem_filter.mp he
  have hcc : e.customerID = c := by
    have := of_decide_eq_true hcond
    exact this.1
  rw [← hwe, h2 e hee hcc]
  simp

/-- C9: exporting an empty top-bucket membership is a no-op: no batch
write is issued to the sink (`exportTopCustomers` returns success before
touching the sink when the membership is empty). -/
theorem C9_export_empty_noop : ∀ batchSize : ℕ,
    exportTopCustomers [] batchSize = [] := fun _ => rfl

section ConcreteEvaluation

attribute [local semireducible] Rat.add Rat.mul Rat.inv Rat.sub

set_option maxRecDepth 1000000

/-- C1 (counterexample): two records sharing a key and an equal recency
stamp; both resolvers keep the record processed FIRST (price 10, the old
email), not the one processed later (price 20, the new email), refuting the
claim that the later record wins on equal stamps. -/
theorem C1_counterexample_tie_later_loses :
    buildPriceMapFull
        [(⟨1, 1, 10, "EUR", 5⟩ : ContentPriceRow), ⟨2, 1, 20, "EUR", 5⟩] 1 =
      some ⟨1, 1, 10, "EUR", 5⟩ ∧
    buildPriceMap
        [(⟨1, 1, 10, "EUR", 5⟩ : ContentPriceRow), ⟨2, 1, 20, "EUR", 5⟩] 1 =
      some 10 ∧
    (10 : ℚ) ≠ 20 ∧
    buildEmailMap
        [(⟨1, 7, 1, "old@example.com", 5⟩ : CustomerDataRow),
          ⟨2, 7, 1, "new@example.com", 5⟩] 7 = some "old@example.com" ∧
    "old@example.com" ≠ "new@example.com" := by
  refine ⟨rfl, rfl, by decide, rfl, by decide⟩

theorem C1_amended_witness :
    ∃ l₁ l₂,
      ([(⟨1, 1, 10, "EUR", 5⟩ : ContentPriceRow),
          ⟨2, 1, 20, "EUR", 5⟩].filter (fun p => p.contentID = 1)) =
        l₁ ++ (⟨1, 1, 10, "EUR", 5⟩ : ContentPriceRow) :: l₂ ∧
      (∀ x ∈ l₁, x.insertDate < (5 : ℤ)) ∧
      (∀ x ∈ l₂, x.insertDate ≤ (5 : ℤ)) :=
  (C1_amended_tie_earlier_wins
      [⟨1, 1, 10, "EUR", 5⟩, ⟨2, 1, 20, "EUR", 5⟩] [] 1).1
    ⟨1, 1, 10, "EUR", 5⟩ rfl

theorem C8_witness :
    ((⟨2, 1, 20, "EUR", 9⟩ : ContentPriceRow) ∈
        [(⟨1, 1, 10, "EUR", 3⟩ : ContentPriceRow), ⟨2, 1, 20, "EUR", 9⟩]) ∧
    (⟨2, 1, 20, "EUR", 9⟩ : ContentPriceRow).contentID = 1 ∧
    (⟨1, 1, 10, "EUR", 3⟩ : ContentPriceRow).insertDate ≤
      (⟨2, 1, 20, "EUR", 9⟩ : ContentPriceRow).insertDate ∧
    buildPriceMap
        [(⟨1, 1, 10, "EUR", 3⟩ : ContentPriceRow), ⟨2, 1, 20, "EUR", 9⟩,
          ⟨3, 2, 99, "EUR", 50⟩] 1 =
      buildPriceMap
        [(⟨1, 1, 10, "EUR", 3⟩ : ContentPriceRow), ⟨2, 1, 20, "EUR", 9⟩] 1 := by
  have h := C8_resolver_latest_wins
    [(⟨1, 1, 10, "EUR", 3⟩ : ContentPriceRow), ⟨2, 1, 20, "EUR", 9⟩] [] 1
  obtain ⟨hmem, hkey, hmax⟩ := h.1 ⟨2, 1, 20, "EUR", 9⟩ rfl
  refine ⟨hmem, hkey, hmax ⟨1, 1, 10, "EUR", 3⟩ (by decide) rfl, ?_⟩
  exact (C8_resolver_latest_wins
    [(⟨1, 1, 10, "EUR", 3⟩ : ContentPriceRow), ⟨2, 1, 20, "EUR", 9⟩] [] 1).2.2.1
    [⟨1, 1, 10, "EUR", 3⟩, ⟨2, 1, 20, "EUR", 9⟩, ⟨3, 2, 99, "EUR", 50⟩] (by decide)


/-- C2: the revenue accumulation of `computeCA` in the source is plain
binary `float64`, not a decimal-safe representation: ten quantity-1 events
at decimal price 0.1 accumulate to 0.9999999999999999 (the binary64 value
9007199254740991/2^53) under the source's arithmetic (`computeCA64`),
while decimal-exact accumulation yields exactly 1. -/
theorem C2_float64_not_decimal_safe :
    alookup (computeCA (List.replicate 10 ⟨0, 0, 1, 1, 6, 0, 1, 0⟩)
        (fun k => if k = 1 then some (1 / 10) else none)).1 1 = some 1 ∧
    alookup (computeCA64 (List.replicate 10 ⟨0, 0, 1, 1, 6, 0, 1, 0⟩)
        (fun k => if k = 1 then some (round64 (1 / 10)) else none)).1 1 =
      some (9007199254740991 / 9007199254740992) ∧
    ((9007199254740991 : ℚ) / 9007199254740992) ≠ 1 := by
  refine ⟨by decide, by decide, by decide⟩

/-- C6 (counterexample): under the source's float64 accumulation the
aggregated revenue is NOT independent of event order: one customer with
three quantity-1 events priced 0.1, 0.2 and 0.3 totals
0.6000000000000001 in one processing order and 0.6 in the reverse order,
although the two event sequences are permutations of each other. -/
theorem C6_counterexample_order_dependent :
    ([(⟨0, 0, 1, 1, 6, 0, 1, 0⟩ : EventRow), ⟨0, 0, 2, 1, 6, 0, 1, 0⟩,
        ⟨0, 0, 3, 1, 6, 0, 1, 0⟩].Perm
      [⟨0, 0, 3, 1, 6, 0, 1, 0⟩, ⟨0, 0, 2, 1, 6, 0, 1, 0⟩,
        ⟨0, 0, 1, 1, 6, 0, 1, 0⟩]) ∧
    alookup (computeCA64
        [(⟨0, 0, 1, 1, 6, 0, 1, 0⟩ : EventRow), ⟨0, 0, 2, 1, 6, 0, 1, 0⟩,
          ⟨0, 0, 3, 1, 6, 0, 1, 0⟩]
        (fun k => if k = 1 then some (round64 (1 / 10))
          else if k = 2 then some (round64 (2 / 10))
          else if k = 3 then some (round64 (3 / 10)) else none)).1 1 ≠
      alookup (computeCA64
        [(⟨0, 0, 3, 1, 6, 0, 1, 0⟩ : EventRow), ⟨0, 0, 2, 1, 6, 0, 1, 0⟩,
          ⟨0, 0, 1, 1, 6, 0, 1, 0⟩]
        (fun k => if k = 1 then some (round64 (1 / 10))
          else if k = 2 then some (round64 (2 / 10))
          else if k = 3 then some (round64 (3 / 10)) else none)).1 1 := by
  refine ⟨by decide, by decide⟩

theorem C6_amended_witness :
    (∃ e ∈ [(⟨1, 0, 10, 100, 6, 0, 2, 0⟩ : EventRow), ⟨2, 0, 11, 100, 6, 0, 1, 0⟩],
      e.customerID = 100) ∧
    (∀ e ∈ [(⟨1, 0, 10, 100, 6, 0, 2, 0⟩ : EventRow), ⟨2, 0, 11, 100, 6, 0, 1, 0⟩],
      e.customerID = 100 →
        ((fun k => if k = 10 then some (2 : ℚ) else
            if k = 11 then some 5 else none) e.contentID).isSome) ∧
    alookup (computeCA
        [(⟨1, 0, 10, 100, 6, 0, 2, 0⟩ : EventRow), ⟨2, 0, 11, 100, 6, 0, 1, 0⟩]
        (fun k => if k = 10 then some (2 : ℚ) else
          if k = 11 then some 5 else none)).1 100 = some 9 := by
  refine ⟨by decide, by decide, ?_⟩
  have h := (C6_amended_exact_additivity
    [(⟨1, 0, 10, 100, 6, 0, 2, 0⟩ : EventRow), ⟨2, 0, 11, 100, 6, 0, 1, 0⟩]
    (fun k => if k = 10 then some (2 : ℚ) else if k = 11 then some 5 else none)
    100 (by decide) (by decide)).1
  rw [h]
  decide

theorem C7_witness :
    (∀ e ∈ [(⟨1, 0, 10, 1, 6, 0, 1, 0⟩ : EventRow), ⟨2, 0, 99, 2, 6, 0, 5, 0⟩],
      e.customerID = 2 →
        (fun k => if k = 10 then some (3 : ℚ) else none) e.contentID = none) ∧
    (computeCA [(⟨1, 0, 10, 1, 6, 0, 1, 0⟩ : EventRow), ⟨2, 0, 99, 2, 6, 0, 5, 0⟩]
        (fun k => if k = 10 then some (3 : ℚ) else none)).1 =
      (computeCA
        ([(⟨1, 0, 10, 1, 6, 0, 1, 0⟩ : EventRow), ⟨2, 0, 99, 2, 6, 0, 5, 0⟩].filter
          (fun e => ((fun k => if k = 10 then some (3 : ℚ) else none) e.contentID).isSome))
        (fun k => if k = 10 then some (3 : ℚ) else none)).1 ∧
    alookup (computeCA
        [(⟨1, 0, 10, 1, 6, 0, 1, 0⟩ : EventRow), ⟨2, 0, 99, 2, 6, 0, 5, 0⟩]
        (fun k => if k = 10 then some (3 : ℚ) else none)).1 2 = none ∧
    alookup (computeCA
        [(⟨1, 0, 10, 1, 6, 0, 1, 0⟩ : EventRow), ⟨2, 0, 99, 2, 6, 0, 5, 0⟩]
        (fun k => if k = 10 then some (3 : ℚ) else none)).2 99 = some 1 := by
  have h := C7_unpriced_excluded
    [(⟨1, 0, 10, 1, 6, 0, 1, 0⟩ : EventRow), ⟨2, 0, 99, 2, 6, 0, 5, 0⟩]
    (fun k => if k = 10 then some (3 : ℚ) else none) 2 99 (by decide)
  refine ⟨by decide, h.1, h.2.1, ?_⟩
  rw [h.2.2]
  decide

theorem C10_witness :
    (∃ e ∈ [(⟨1, 0, 10, 7, 6, 0, 0, 0⟩ : EventRow)],
      e.customerID = 7 ∧
        ((fun k => if k = 10 then some (5 : ℚ) else none) e.contentID).isSome) ∧
    (∀ e ∈ [(⟨1, 0, 10, 7, 6, 0, 0, 0⟩ : EventRow)],
      e.customerID = 7 → e.quantity = 0) ∧
    alookup (computeCA [(⟨1, 0, 10, 7, 6, 0, 0, 0⟩ : EventRow)]
        (fun k => if k = 10 then some (5 : ℚ) else none)).1 7 = some 0 :=
  ⟨by decide, by decide,
    C10_zero_quantity_entry [⟨1, 0, 10, 7, 6, 0, 0, 0⟩]
      (fun k => if k = 10 then some (5 : ℚ) else none) 7 (by decide) (by decide)⟩

theorem C9_witness : exportTopCustomers [] 500 = [] :=
  C9_export_empty_noop 500


theorem C3_witness :
    ([(⟨100, "a", 50⟩ : CustomerCA)] ≠ []) ∧ (0 < (1 : ℚ)) ∧ ((1 : ℚ) ≤ 1) ∧
    (qK 1 = max 1 (goRound (1 / 1)).toNat ∧
     qS 1 1 = (1 + qK 1 - 1) / qK 1 ∧
     ∃ qstats top,
       computeQuantiles [(⟨100, "a", 50⟩ : CustomerCA)] 1 = some (qstats, top) ∧
       qstats.length = qK 1 ∧
       ∀ i, i < qK 1 →
         (1 ≤ i * qS 1 1 → qstats[i]? = some ⟨0, 0, 0⟩) ∧
         (i * qS 1 1 < 1 →
           ∃ s, qstats[i]? = some s ∧
             s.nbClients = min ((i + 1) * qS 1 1) 1 - i * qS 1 1 ∧
             ([(⟨100, "a", 50⟩ : CustomerCA)][i * qS 1 1]?).map
               (fun r => r.ca) = some s.maxCA ∧
             ([(⟨100, "a", 50⟩ : CustomerCA)][min ((i + 1) * qS 1 1) 1 - 1]?).map
               (fun r => r.ca) = some s.minCA)) :=
  ⟨by decide, by decide, by decide,
    C3_bucketer_shape [⟨100, "a", 50⟩] 1 (by decide) (by decide) (by decide)⟩

theorem C4_witness :
    (List.Pairwise (fun a b => b.ca ≤ a.ca)
      [(⟨1, "a", 9⟩ : CustomerCA), ⟨2, "b", 4⟩]) ∧
    ([(⟨1, "a", 9⟩ : CustomerCA), ⟨2, "b", 4⟩] ≠ []) ∧
    (0 < (1 / 2 : ℚ)) ∧ ((1 / 2 : ℚ) ≤ 1) ∧
    (∃ qstats top,
      computeQuantiles [(⟨1, "a", 9⟩ : CustomerCA), ⟨2, "b", 4⟩] (1 / 2) =
        some (qstats, top) ∧
      (qstats.map (fun s => s.nbClients)).sum = 2 ∧
      ∀ i a b, qstats[i]? = some a → qstats[i + 1]? = some b →
        a.nbClients ≠ 0 → b.nbClients ≠ 0 → b.maxCA ≤ a.minCA) :=
  ⟨by decide, by decide, by decide, by decide,
    C4_bucketer_coverage [⟨1, "a", 9⟩, ⟨2, "b", 4⟩] (1 / 2)
      (by decide) (by decide) (by decide) (by decide)⟩

theorem C5_witness :
    (0 < (1 : ℚ)) ∧ ((1 : ℚ) ≤ 1) ∧
    (computeQuantiles ([] : List CustomerCA) 1 = none ∧
     ([(⟨1, "a", 3⟩ : CustomerCA)] ≠ [] →
       ∃ qstats, computeQuantiles [(⟨1, "a", 3⟩ : CustomerCA)] 1 =
         some (qstats, [(⟨1, "a", 3⟩ : CustomerCA)].take
           ((1 + max 1 (goRound (1 / 1)).toNat - 1) /
             max 1 (goRound (1 / 1)).toNat)))) :=
  ⟨by decide, by decide,
    C5_top_bucket [⟨1, "a", 3⟩] 1 (by decide) (by decide)⟩

end ConcreteEvaluation
